import Mathlib

/-!
Verification development for the Alibaba RFQ scraper (`main.py`).

The Python source is shallowly embedded below.  Strings are `List Char`
(`Str`); the HTML parse tree handed back by BeautifulSoup is the `Html`
inductive; the network is an oracle function passed in explicitly
(`fetch : Str → Except Unit Html` at the page level, `ℕ → Except E R`
at the per-attempt level inside `get_page`); `datetime.now()` is an
explicit parameter `now : ℚ`, measured in days since the Unix epoch
(the fractional part is the time of day).  Each embedded definition
carries a comment pointing at the lines of `main.py` it translates.
-/

namespace RFQ

abbrev Str := List Char

/-! Basic character/string helpers modelling the Python `str` methods and
the fragments of `re` used by the source.  All of the regexes in `main.py`
are alternations of literal words, so `re.search` on them is exactly
"some alternative occurs as a substring", with the documented leftmost,
first-alternative match policy where a capture is taken. -/

/-- Whitespace test, modelling `str.strip` / regex `\s` on ASCII input. -/
def isSpc (c : Char) : Bool :=
  decide (c = ' ') || decide (c = '\t') || decide (c = '\n') || decide (c = '\r') ||
  decide (c = Char.ofNat 11) || decide (c = Char.ofNat 12)

/-- ASCII digit test, modelling regex `\d`. -/
def isDigitC (c : Char) : Bool := decide ('0' ≤ c) && decide (c ≤ '9')

/-- ASCII lower-casing of one character, modelling `str.lower`. -/
def lowerC (c : Char) : Char :=
  if decide ('A' ≤ c) && decide (c ≤ 'Z') then Char.ofNat (c.toNat + 32) else c

/-- `str.lower` on ASCII input. -/
def toLowerL (s : Str) : Str := s.map lowerC

/-- `str.strip()`: drop leading and trailing whitespace. -/
def stripL (s : Str) : Str :=
  ((s.dropWhile isSpc).reverse.dropWhile isSpc).reverse

/-- Does the first list occur at the head of the second one? -/
def isPre : Str → Str → Bool
  | [], _ => true
  | _ :: _, [] => false
  | p :: ps, c :: cs => decide (p = c) && isPre ps cs

/-- Does `p` occur as a contiguous substring of the second argument?
This is `re.search` for a regex that is a literal word, and Python's
`in` on strings. -/
def containsSub (p : Str) : Str → Bool
  | [] => isPre p []
  | c :: cs => isPre p (c :: cs) || containsSub p cs

/-- Does some word of `ws` occur as a substring of `s`?  This is
`re.search` for an alternation of literal words. -/
def containsAny (ws : List Str) (s : Str) : Bool := ws.any fun w => containsSub w s

/-- Numeric value of an ASCII digit character. -/
def charVal (c : Char) : ℕ := c.toNat - 48

/-- Value of a big-endian ASCII digit string, modelling `int(...)`
on a string of digits (leading zeros allowed). -/
def parseNat (l : Str) : ℕ := l.foldl (fun a c => a * 10 + charVal c) 0

/-- Value of a little-endian ASCII digit string (specification-side
companion of `parseNat`, used in the digit round-trip proofs). -/
def valLE : Str → ℕ
  | [] => 0
  | c :: t => charVal c + 10 * valLE t

/-- The ASCII digit character for a value below ten. -/
def digitCharN (m : ℕ) : Char := Char.ofNat (48 + m)

/-- Little-endian digit characters of `n`; the first argument is
structural fuel, always called with fuel above `n`. -/
def natToStrAux : ℕ → ℕ → Str
  | 0, _ => []
  | fuel + 1, n => if n = 0 then [] else digitCharN (n % 10) :: natToStrAux fuel (n / 10)

/-- Decimal representation of a natural number, modelling `str(n)`. -/
def natToStr (n : ℕ) : Str := if n = 0 then [('0')] else (natToStrAux (n + 1) n).reverse

/-- Representation of an integer. -/
def intToStr (z : ℤ) : Str := if z < 0 then '-' :: natToStr z.natAbs else natToStr z.toNat

/-! Calendar arithmetic.  A `datetime` instant is a rational number of
days since 1970-01-01 00:00:00; `strftime('%d-%m-%Y')` needs the civil
date of the instant, computed from the floored day count by the standard
civil-from-days algorithm (the inverse used by every proleptic-Gregorian
date library, which is the library boundary here). -/

/-- Civil date `(year, month, day)` of a day count since 1970-01-01. -/
def civilFromDays (z0 : ℤ) : ℤ × ℕ × ℕ :=
  let z := z0 + 719468
  let era : ℤ := Int.fdiv z 146097
  let doe : ℕ := (z - era * 146097).toNat
  let yoe : ℕ := (doe - doe / 1460 + doe / 36524 - doe / 146096) / 365
  let doy : ℕ := doe - (365 * yoe + yoe / 4 - yoe / 100)
  let mp : ℕ := (5 * doy + 2) / 153
  let d : ℕ := doy - (153 * mp + 2) / 5 + 1
  let m : ℕ := if mp < 10 then mp + 3 else mp - 9
  ((yoe : ℤ) + era * 400 + (if m ≤ 2 then 1 else 0), m, d)

/-- Zero-padded two-digit field of `strftime`. -/
def natToStrPad2 (n : ℕ) : Str := if n < 10 then '0' :: natToStr n else natToStr n

/-- `strftime('%d-%m-%Y')` of an instant `t` (rational days since epoch). -/
def formatDMY (t : ℚ) : Str :=
  let c := civilFromDays ⌊t⌋
  natToStrPad2 c.2.2 ++ '-' :: natToStrPad2 c.2.1 ++ '-' :: intToStr c.1

/-! TimeNormalizer: `AlibabaRFQScraper.parse_time_ago`, main.py lines 42-72. -/

/-- The alternatives of the regex
`(\d+)\s*(hour|hours|day|days|week|weeks|month|months)` in source order
(Python alternation takes the first alternative that matches, so for
input `"hours"` the captured unit is `"hour"`). -/
def unitWords : List Str :=
  [("hour").toList, ("hours").toList, ("day").toList, ("days").toList,
   ("week").toList, ("weeks").toList, ("month").toList, ("months").toList]

/-- The `time_mapping` dict of main.py lines 50-59: unit name to days. -/
def timeMapping : List (Str × ℚ) :=
  [(("hour").toList, 1/24), (("hours").toList, 1/24),
   (("day").toList, 1), (("days").toList, 1),
   (("week").toList, 7), (("weeks").toList, 7),
   (("month").toList, 30), (("months").toList, 30)]

/-- Dict membership plus lookup: `time_mapping[unit]` guarded by
`unit in time_mapping`. -/
def lookupQ (m : List (Str × ℚ)) (k : Str) : Option ℚ :=
  (m.find? fun p => decide (p.1 = k)).map Prod.snd

/-- Attempt of the regex `(\d+)\s*(unit-alternation)` anchored at the
current position: a nonempty greedy digit run, greedy whitespace, then
the first alternative that matches.  (Neither greedy part ever needs to
backtrack: the alternatives all start with a letter, which is neither a
digit nor whitespace.) -/
def matchNum (t : Str) : Option (ℕ × Str) :=
  if (t.takeWhile isDigitC).isEmpty then none
  else
    match unitWords.find? (fun u => isPre u ((t.dropWhile isDigitC).dropWhile isSpc)) with
    | some u => some (parseNat (t.takeWhile isDigitC), u)
    | none => none

/-- `re.search`: try the pattern at each position, leftmost match wins. -/
def findTimeMatch : Str → Option (ℕ × Str)
  | [] => none
  | c :: cs =>
    match matchNum (c :: cs) with
    | some r => some r
    | none => findTimeMatch cs

/-- main.py lines 42-72, `parse_time_ago`.  `datetime.now()` is the
parameter `now`; `datetime.now() - pd.Timedelta(days=days_ago)` is exact
rational arithmetic on instants. -/
def parse_time_ago (now : ℚ) (time_str : Str) : Str :=
  if time_str = [] then []
  else
    let t := stripL (toLowerL time_str)
    match findTimeMatch t with
    | some nu =>
      match lookupQ timeMapping nu.2 with
      | some dpu => formatDMY (now - (nu.1 : ℚ) * dpu)
      | none => t
    | none => t

/-! Fetcher: `AlibabaRFQScraper.get_page`, main.py lines 28-40.  The
network is an oracle `oracle : ℕ → Except E R` giving the outcome of each
HTTP attempt.  The observable behaviour of one call is recorded in a
`FetchLog`: `result = .error e` means the call raised `e`,
`result = .ok (some r)` means it returned response `r`, and
`result = .ok none` means the function fell off the end of the loop and
returned Python's `None`; `attempts` counts the HTTP attempts made and
`sleeps` lists the backoff sleeps performed, in order. -/

structure FetchLog (E R : Type) where
  result : Except E (Option R)
  attempts : ℕ
  sleeps : List ℕ

/-- The `for attempt in range(retries)` loop of lines 30-40, re-indexed
for structural recursion by the number `d` of iterations remaining, so
that `attempt + d = retries` throughout; the Python guard
`attempt < retries - 1` is then exactly `0 < d` in the `d + 1` case. -/
def get_page_go (oracle : ℕ → Except E R) : ℕ → ℕ → FetchLog E R
  | 0, _ => ⟨.ok none, 0, []⟩
  | d + 1, attempt =>
    match oracle attempt with
    | .ok r => ⟨.ok (some r), 1, []⟩
    | .error e =>
      if 0 < d then
        let t := get_page_go oracle d (attempt + 1)
        ⟨t.result, t.attempts + 1, 2 ^ attempt :: t.sleeps⟩
      else ⟨.error e, 1, []⟩

/-- main.py lines 28-40, `get_page(url, retries=3)`. -/
def get_page (oracle : ℕ → Except E R) (retries : ℕ) : FetchLog E R :=
  get_page_go oracle retries 0

/-! The HTML parse tree (the BeautifulSoup library boundary).  A node is
an element with a tag, attributes and children, or a bare text node.
The BeautifulSoup operations used by the source are modelled next to it:
`find`/`find_all` walk the descendants of a node (excluding the node
itself) in document order. -/

inductive Html where
  | text (s : Str)
  | elem (tag : Str) (attrs : List (Str × Str)) (children : List Html)

mutual
/-- A node followed by all its descendants, in document (pre)order. -/
def descNode : Html → List Html
  | .text s => [.text s]
  | .elem t a cs => .elem t a cs :: descList cs
def descList : List Html → List Html
  | [] => []
  | c :: cs => descNode c ++ descList cs
end

def childrenOf : Html → List Html
  | .elem _ _ cs => cs
  | .text _ => []

/-- `tag.find_all(pred)`: all descendants satisfying the filter. -/
def findAll (h : Html) (p : Html → Bool) : List Html :=
  (descList (childrenOf h)).filter p

/-- `tag.find(pred)`: the first descendant satisfying the filter. -/
def findFirst (h : Html) (p : Html → Bool) : Option Html :=
  (descList (childrenOf h)).find? p

/-- Attribute lookup, `tag['k']` / `tag.get('k')`. -/
def attr? : Html → Str → Option Str
  | .elem _ attrs _, k => (attrs.find? fun p => decide (p.1 = k)).map Prod.snd
  | .text _, _ => none

def tagIs (h : Html) (t : Str) : Bool :=
  match h with
  | .elem tg _ _ => decide (tg = t)
  | .text _ => false

def tagIn (h : Html) (ts : List Str) : Bool :=
  match h with
  | .elem tg _ _ => decide (tg ∈ ts)
  | .text _ => false

/-- The filter `class_=re.compile(words)`: the node has a `class`
attribute and some alternative occurs in it (all the class regexes of
main.py are case-sensitive alternations of literal words). -/
def classMatches (ws : List Str) (h : Html) : Bool :=
  match attr? h (("class").toList) with
  | some c => containsAny ws c
  | none => false

/-- BeautifulSoup `tag.string`: the single string below a chain of
single-child tags, `None` as soon as a tag has zero or several
children. -/
def nodeString : Html → Option Str
  | .text s => some s
  | .elem _ _ [c] => nodeString c
  | .elem _ _ _ => none

/-- The filter `string=re.compile(words)` (case-sensitive). -/
def stringMatches (ws : List Str) (h : Html) : Bool :=
  match nodeString h with
  | some s => containsAny ws s
  | none => false

/-- The filter `string=re.compile(words, re.I)` (case-insensitive). -/
def stringMatchesCI (ws : List Str) (h : Html) : Bool :=
  match nodeString h with
  | some s => containsAny ws (toLowerL s)
  | none => false

mutual
/-- All text-node strings below a node, in document order. -/
def textsOf : Html → List Str
  | .text s => [s]
  | .elem _ _ cs => textsOfL cs
def textsOfL : List Html → List Str
  | [] => []
  | c :: cs => textsOf c ++ textsOfL cs
end

def joinL : List Str → Str
  | [] => []
  | s :: ss => s ++ joinL ss

/-- `tag.get_text(strip=True)`: every string, individually stripped,
concatenated in document order. -/
def getTextStrip (h : Html) : Str := joinL ((textsOf h).map stripL)

/-- The filter `('a', href=True)`: an anchor carrying an `href`. -/
def aWithHref (h : Html) : Bool :=
  tagIs h (("a").toList) && (attr? h (("href").toList)).isSome

/-! RecordExtractor: `AlibabaRFQScraper.extract_rfq_data`, main.py
lines 74-171.  The Python builds a dict of the 16 output keys and then
runs a straight-line sequence of guarded assignments; the dict is the
`RFQRecord` structure and each assignment block is one `step...`
function below, applied in source order. -/

structure RFQRecord where
  rfqId : Str
  title : Str
  buyerName : Str
  buyerImage : Str
  inquiryTime : Str
  quotesLeft : Str
  country : Str
  quantityRequired : Str
  emailConfirmed : Str
  experiencedBuyer : Str
  completeOrderViaRfq : Str
  typicalReplies : Str
  interactiveUser : Str
  inquiryUrl : Str
  inquiryDate : Str
  scrapingDate : Str
deriving DecidableEq, Repr

/-- The initial dict of lines 76-93; `datetime.now().strftime('%d-%m-%Y')`
is `formatDMY now`. -/
def initRecord (now : ℚ) : RFQRecord where
  rfqId := []
  title := []
  buyerName := []
  buyerImage := []
  inquiryTime := []
  quotesLeft := []
  country := []
  quantityRequired := []
  emailConfirmed := ("No").toList
  experiencedBuyer := ("No").toList
  completeOrderViaRfq := ("No").toList
  typicalReplies := ("No").toList
  interactiveUser := ("No").toList
  inquiryUrl := []
  inquiryDate := []
  scrapingDate := formatDMY now

/-- Regex `ID([^&]+)` guarded by `'ID' in href`, lines 103-106: the
leftmost occurrence of `ID` that is followed by at least one
non-ampersand character captures greedily up to the next `&` or the end;
occurrences of `ID` at the very end or directly before `&` do not match,
and the search moves on past them. -/
def idCapture : Str → Option Str
  | [] => none
  | c :: cs =>
    if isPre (("ID").toList) (c :: cs) then
      match (cs.drop 1).takeWhile (fun x => !decide (x = '&')) with
      | [] => idCapture cs
      | d :: ds => some (d :: ds)
    else idCapture cs

/-- Regex `(\d+)` on free text, line 136: first digit starts a greedy
digit run. -/
def firstDigitRun : Str → Option Str
  | [] => none
  | c :: cs => if isDigitC c then some ((c :: cs).takeWhile isDigitC) else firstDigitRun cs

/-! The individual lookups of `extract_rfq_data`, one per field group,
each a function of the candidate node alone. -/

/-- Line 97: `rfq_element.find('a', href=True)`. -/
def anchorF (e : Html) : Option Html := findFirst e aWithHref

/-- Lines 109-111: title element with anchor fallback. -/
def titleElemF (e : Html) : Option Html :=
  match findFirst e (fun h =>
      tagIn h [("h3").toList, ("h4").toList, ("span").toList] &&
      classMatches [("title").toList, ("subject").toList] h) with
  | some t => some t
  | none => findFirst e (fun h => tagIs h (("a").toList))

/-- Line 116: buyer element. -/
def buyerElemF (e : Html) : Option Html :=
  findFirst e (fun h =>
    tagIn h [("span").toList, ("div").toList] &&
    classMatches [("buyer").toList, ("user").toList, ("name").toList] h)

/-- Line 121: first `img`. -/
def imgElemF (e : Html) : Option Html := findFirst e (fun h => tagIs h (("img").toList))

/-- Line 126: element whose string mentions a temporal keyword. -/
def timeElemF (e : Html) : Option Html :=
  findFirst e (fun h =>
    tagIn h [("span").toList, ("div").toList] &&
    stringMatches [("ago").toList, ("before").toList, ("hour").toList,
                   ("day").toList, ("week").toList, ("month").toList] h)

/-- Line 133: element whose string mentions a quote keyword. -/
def quotesElemF (e : Html) : Option Html :=
  findFirst e (fun h =>
    tagIn h [("span").toList, ("div").toList] &&
    stringMatches [("quote").toList, ("left").toList] h)

/-- Line 141: country element. -/
def countryElemF (e : Html) : Option Html :=
  findFirst e (fun h =>
    tagIn h [("span").toList, ("div").toList] &&
    classMatches [("country").toList, ("flag").toList] h)

/-- Line 146: quantity element. -/
def quantityElemF (e : Html) : Option Html :=
  findFirst e (fun h =>
    tagIn h [("span").toList, ("div").toList] &&
    stringMatches [("piece").toList, ("pcs").toList, ("unit").toList,
                   ("box").toList, ("kg").toList, ("ton").toList] h)

/-- Lines 153-165: the five presence-based badge lookups. -/
def flagElemF (ws : List Str) (e : Html) : Option Html :=
  findFirst e (fun h =>
    tagIn h [("span").toList, ("div").toList, ("i").toList] && classMatches ws h)

def emailWords : List Str := [("email").toList, ("confirm").toList, ("verified").toList]
def experiencedWords : List Str := [("experienced").toList, ("veteran").toList, ("star").toList]
def completeWords : List Str := [("complete").toList, ("order").toList, ("rfq").toList]
def typicalWords : List Str := [("typical").toList, ("reply").toList, ("response").toList]
def interactiveWords : List Str := [("interactive").toList, ("active").toList, ("online").toList]

/-! The assignment blocks, in source order. -/

/-- Lines 96-106: inquiry URL and RFQ id from the first anchor. -/
def stepLink (urljoin : Str → Str → Str) (base_url : Str) (e : Html) (d : RFQRecord) : RFQRecord :=
  match anchorF e with
  | some link =>
    let href := (attr? link (("href").toList)).getD []
    let dA := { d with inquiryUrl := urljoin base_url href }
    match idCapture href with
    | some idv => { dA with rfqId := idv }
    | none => dA
  | none => d

/-- Lines 108-113: title. -/
def stepTitle (e : Html) (d : RFQRecord) : RFQRecord :=
  match titleElemF e with
  | some t => { d with title := getTextStrip t }
  | none => d

/-- Lines 116-118: buyer name. -/
def stepBuyer (e : Html) (d : RFQRecord) : RFQRecord :=
  match buyerElemF e with
  | some b => { d with buyerName := getTextStrip b }
  | none => d

/-- Lines 121-123: buyer image (`img_elem.get('src')` must be truthy,
so an empty `src` is skipped). -/
def stepImg (e : Html) (d : RFQRecord) : RFQRecord :=
  match imgElemF e with
  | some img =>
    match attr? img (("src").toList) with
    | some s => if s = [] then d else { d with buyerImage := s }
    | none => d
  | none => d

/-- Lines 126-130: inquiry time text and its normalized date. -/
def stepTime (now : ℚ) (e : Html) (d : RFQRecord) : RFQRecord :=
  match timeElemF e with
  | some t =>
    let tt := getTextStrip t
    { d with inquiryTime := tt, inquiryDate := parse_time_ago now tt }
  | none => d

/-- Lines 133-138: quotes left. -/
def stepQuotes (e : Html) (d : RFQRecord) : RFQRecord :=
  match quotesElemF e with
  | some q =>
    match firstDigitRun (getTextStrip q) with
    | some ds => { d with quotesLeft := ds }
    | none => d
  | none => d

/-- Lines 141-143: country. -/
def stepCountry (e : Html) (d : RFQRecord) : RFQRecord :=
  match countryElemF e with
  | some c => { d with country := getTextStrip c }
  | none => d

/-- Lines 146-149: quantity. -/
def stepQuantity (e : Html) (d : RFQRecord) : RFQRecord :=
  match quantityElemF e with
  | some q => { d with quantityRequired := getTextStrip q }
  | none => d

/-- Lines 153-154. -/
def stepEmail (e : Html) (d : RFQRecord) : RFQRecord :=
  match flagElemF emailWords e with
  | some _ => { d with emailConfirmed := ("Yes").toList }
  | none => d

/-- Lines 156-157. -/
def stepExperienced (e : Html) (d : RFQRecord) : RFQRecord :=
  match flagElemF experiencedWords e with
  | some _ => { d with experiencedBuyer := ("Yes").toList }
  | none => d

/-- Lines 159-160. -/
def stepComplete (e : Html) (d : RFQRecord) : RFQRecord :=
  match flagElemF completeWords e with
  | some _ => { d with completeOrderViaRfq := ("Yes").toList }
  | none => d

/-- Lines 162-163. -/
def stepTypical (e : Html) (d : RFQRecord) : RFQRecord :=
  match flagElemF typicalWords e with
  | some _ => { d with typicalReplies := ("Yes").toList }
  | none => d

/-- Lines 165-166. -/
def stepInteractive (e : Html) (d : RFQRecord) : RFQRecord :=
  match flagElemF interactiveWords e with
  | some _ => { d with interactiveUser := ("Yes").toList }
  | none => d

/-- main.py lines 74-171, `extract_rfq_data`: the initial dict pushed
through every assignment block in source order.  The `try/except` of
lines 95-169 never fires in the embedded semantics (every lookup is
total and returns an option); a lookup miss simply leaves its block's
fields untouched. -/
def extract_rfq_data (urljoin : Str → Str → Str) (base_url : Str) (now : ℚ) (e : Html) : RFQRecord :=
  stepInteractive e (stepTypical e (stepComplete e (stepExperienced e (stepEmail e
    (stepQuantity e (stepCountry e (stepQuotes e (stepTime now e
      (stepImg e (stepBuyer e (stepTitle e (stepLink urljoin base_url e (initRecord now)))))))))))))

/-! The per-field extractors the spec's design notes call for: each
field of the output record as a function of the node alone.  These are
the comparison point for the field-locality claim. -/

def inquiryUrlF (urljoin : Str → Str → Str) (base_url : Str) (e : Html) : Str :=
  match anchorF e with
  | some link => urljoin base_url ((attr? link (("href").toList)).getD [])
  | none => []

def rfqIdF (e : Html) : Str :=
  match anchorF e with
  | some link => (idCapture ((attr? link (("href").toList)).getD [])).getD []
  | none => []

def titleF (e : Html) : Str :=
  match titleElemF e with
  | some t => getTextStrip t
  | none => []

def buyerNameF (e : Html) : Str :=
  match buyerElemF e with
  | some b => getTextStrip b
  | none => []

def buyerImageF (e : Html) : Str :=
  match imgElemF e with
  | some img =>
    match attr? img (("src").toList) with
    | some s => if s = [] then [] else s
    | none => []
  | none => []

def inquiryTimeF (e : Html) : Str :=
  match timeElemF e with
  | some t => getTextStrip t
  | none => []

def inquiryDateF (now : ℚ) (e : Html) : Str :=
  match timeElemF e with
  | some t => parse_time_ago now (getTextStrip t)
  | none => []

def quotesLeftF (e : Html) : Str :=
  match quotesElemF e with
  | some q => (firstDigitRun (getTextStrip q)).getD []
  | none => []

def countryF (e : Html) : Str :=
  match countryElemF e with
  | some c => getTextStrip c
  | none => []

def quantityRequiredF (e : Html) : Str :=
  match quantityElemF e with
  | some q => getTextStrip q
  | none => []

def flagF (ws : List Str) (e : Html) : Str :=
  match flagElemF ws e with
  | some _ => ("Yes").toList
  | none => ("No").toList

/-! PageScanner: `AlibabaRFQScraper.scrape_rfq_page`, main.py
lines 173-203. -/

/-- Lines 182-186: candidate containers, with the broader fallback when
the first pattern finds nothing. -/
def rfqContainers (soup : Html) : List Html :=
  let cs := findAll soup (fun h =>
    tagIn h [("div").toList, ("li").toList] &&
    classMatches [("rfq").toList, ("item").toList, ("card").toList,
                  ("inquiry").toList, ("request").toList] h)
  if cs.isEmpty then
    findAll soup (fun h =>
      tagIn h [("div").toList, ("li").toList] &&
      classMatches [("list").toList, ("item").toList, ("card").toList] h)
  else cs

/-- Lines 188-199: keep containers holding an anchor with an href,
extract each, keep records with a non-empty title. -/
def scanContent (urljoin : Str → Str → Str) (base_url : Str) (now : ℚ) (soup : Html) : List RFQRecord :=
  (((rfqContainers soup).filter fun c => (anchorF c).isSome).map
      (extract_rfq_data urljoin base_url now)).filter fun r => !r.title.isEmpty

/-- main.py lines 173-203, `scrape_rfq_page`: fetch then scan; the
`except` of lines 201-203 turns any page-level failure into `[]`. -/
def scrape_rfq_page (urljoin : Str → Str → Str) (base_url : Str) (now : ℚ)
    (fetch : Str → Except Unit Html) (url : Str) : List RFQRecord :=
  match fetch url with
  | .ok soup => scanContent urljoin base_url now soup
  | .error _ => []

/-! PaginationDiscoverer: `AlibabaRFQScraper.get_all_page_urls`, main.py
lines 205-235. -/

/-- Append a URL unless it is already present (lines 222-223, 229-230). -/
def appendIfNew (urls : List Str) (u : Str) : List Str :=
  if u ∈ urls then urls else urls ++ [u]

/-- Regex `p=\d+`: a `p=` immediately followed by a digit occurs. -/
def pEqDigitsAt (l : Str) : Bool :=
  match l with
  | 'p' :: '=' :: r :: _ => isDigitC r
  | _ => false

def hasPDigits : Str → Bool
  | [] => false
  | c :: cs => pEqDigitsAt (c :: cs) || hasPDigits cs

def nextWords : List Str := [("next").toList, ("more").toList, ("Â»").toList, (">").toList]

/-- Lines 213-223: locate the pagination container and fold its
`href`-bearing anchors over the accumulated URL list, appending resolved
URLs whose raw href mentions `page` (case-insensitively) or carries a
`p=<digits>` query, unless already present. -/
def paginationUrls (urljoin : Str → Str → Str) (siteBase : Str) (soup : Html)
    (urls : List Str) : List Str :=
  match findFirst soup (fun h =>
      tagIn h [("div").toList, ("ul").toList] &&
      classMatches [("pag").toList, ("page").toList] h) with
  | some pagination =>
    (findAll pagination aWithHref).foldl (fun acc link =>
      let href := (attr? link (("href").toList)).getD []
      if containsSub (("page").toList) (toLowerL href) || hasPDigits href then
        appendIfNew acc (urljoin siteBase href)
      else acc) urls
  | none => urls

/-- Lines 226-230: find a whole-page "next" anchor and append its
resolved href when it is present, truthy, and new. -/
def nextUrlStep (urljoin : Str → Str → Str) (siteBase : Str) (soup : Html)
    (urls : List Str) : List Str :=
  match findFirst soup (fun h => tagIs h (("a").toList) && stringMatchesCI nextWords h) with
  | some nl =>
    match attr? nl (("href").toList) with
    | some hv => if hv = [] then urls else appendIfNew urls (urljoin siteBase hv)
    | none => urls
  | none => urls

/-- main.py lines 205-235, `get_all_page_urls(base_url)`: seed with the
start URL; on a successful fetch, walk the pagination container's
anchors and a whole-page "next" anchor, appending resolved URLs that are
not already present; any fetch failure leaves just the seed (the `try`
encloses the fetch, which precedes every append). -/
def get_all_page_urls (urljoin : Str → Str → Str) (siteBase : Str)
    (fetch : Str → Except Unit Html) (base_url : Str) : List Str :=
  match fetch base_url with
  | .error _ => [base_url]
  | .ok soup => nextUrlStep urljoin siteBase soup (paginationUrls urljoin siteBase soup [base_url])

/-! CrawlOrchestrator: `AlibabaRFQScraper.scrape_all_pages`, main.py
lines 237-263. -/

/-- The page loop of lines 249-261, instrumented with the list of URLs
actually visited: each visited page's records are appended, and a page
yielding zero records breaks out of the loop. -/
def crawlVisit (scrape : Str → List RFQRecord) : List Str → List Str × List RFQRecord
  | [] => ([], [])
  | u :: rest =>
    let pd := scrape u
    if pd.isEmpty then ([u], pd)
    else
      let t := crawlVisit scrape rest
      (u :: t.1, pd ++ t.2)

/-- main.py lines 237-263, `scrape_all_pages(start_url, max_pages)`:
discovered URLs truncated to `max_pages`, then the visit loop; returns
the aggregated records (`all_data`). -/
def scrape_all_pages (urljoin : Str → Str → Str) (siteBase : Str) (now : ℚ)
    (fetch : Str → Except Unit Html) (start_url : Str) (max_pages : ℕ) : List RFQRecord :=
  (crawlVisit (scrape_rfq_page urljoin siteBase now fetch)
    ((get_all_page_urls urljoin siteBase fetch start_url).take max_pages)).2

/-- The pages the crawl actually visits, same loop. -/
def pagesVisited (urljoin : Str → Str → Str) (siteBase : Str) (now : ℚ)
    (fetch : Str → Except Unit Html) (start_url : Str) (max_pages : ℕ) : List Str :=
  (crawlVisit (scrape_rfq_page urljoin siteBase now fetch)
    ((get_all_page_urls urljoin siteBase fetch start_url).take max_pages)).1

/-! Output serialization: `AlibabaRFQScraper.save_to_csv`, main.py
lines 265-293.  A record built by `extract_rfq_data` always carries all
16 keys, so the column-completion loop of lines 281-283 adds nothing and
the reorder of line 286 is the fixed projection `toRow`; the produced
table is the header row followed by one row per record.  The guard of
lines 267-269 returns `None` without writing anything when the data is
empty, which is the `none` branch. -/

def headerRow : List Str :=
  [("RFQ ID").toList, ("Title").toList, ("Buyer Name").toList, ("Buyer Image").toList,
   ("Inquiry Time").toList, ("Quotes Left").toList, ("Country").toList,
   ("Quantity Required").toList, ("Email Confirmed").toList, ("Experienced Buyer").toList,
   ("Complete Order via RFQ").toList, ("Typical Replies").toList, ("Interactive User").toList,
   ("Inquiry URL").toList, ("Inquiry Date").toList, ("Scraping Date").toList]

def toRow (r : RFQRecord) : List Str :=
  [r.rfqId, r.title, r.buyerName, r.buyerImage, r.inquiryTime, r.quotesLeft, r.country,
   r.quantityRequired, r.emailConfirmed, r.experiencedBuyer, r.completeOrderViaRfq,
   r.typicalReplies, r.interactiveUser, r.inquiryUrl, r.inquiryDate, r.scrapingDate]

def save_to_csv (data : List RFQRecord) : Option (List (List Str)) :=
  if data.isEmpty then none else some (headerRow :: data.map toRow)

/-! Concrete fixtures used to evaluate the theorems below on explicit
inputs: a resolver, a site base, sample nodes and pages, and sample
fetch/attempt oracles. -/

/-- A concrete URL resolver standing in for `urljoin`. -/
def ujW : Str → Str → Str := fun b h => b ++ h

def baseW : Str := ("B/").toList

/-- A well-formed RFQ card: anchor with an `ID` href, buyer span, and a
relative-time span. -/
def nodeA : Html :=
  .elem ("div").toList [(("class").toList, ("rfq-item").toList)]
    [.elem ("a").toList [(("href").toList, ("detail?ID123&x").toList)]
       [.text ("Buy Widgets").toList],
     .elem ("span").toList [(("class").toList, ("buyer-name").toList)]
       [.text (" Ali ").toList],
     .elem ("span").toList [] [.text ("Posted ago").toList]]

/-- A candidate container with a titled heading but no anchor at all. -/
def nodeNoAnchor : Html :=
  .elem ("div").toList [(("class").toList, ("item").toList)]
    [.elem ("h3").toList [(("class").toList, ("title").toList)] [.text ("Foo").toList]]

def pageBoth : Html := .elem ("html").toList [] [nodeA, nodeNoAnchor]

def pageOnlyNoAnchor : Html := .elem ("html").toList [] [nodeNoAnchor]

/-- A page carrying both a pagination block (to `page2`, `page3`) and
one RFQ card. -/
def pageMain : Html :=
  .elem ("html").toList []
    [.elem ("div").toList [(("class").toList, ("pagination").toList)]
       [.elem ("a").toList [(("href").toList, ("page2").toList)] [.text ("2").toList],
        .elem ("a").toList [(("href").toList, ("page3").toList)] [.text ("3").toList]],
     nodeA]

def pageEmptyW : Html := .elem ("html").toList [] []

def startW : Str := ("S").toList

def page2W : Str := ("B/page2").toList

/-- Serves `pageMain` at the start URL and an empty page elsewhere. -/
def fetchW : Str → Except Unit Html :=
  fun u => if u = startW then .ok pageMain else .ok pageEmptyW

def fetchFailW : Str → Except Unit Html := fun _ => .error ()

/-- An attempt oracle that always fails. -/
def orcFailW : ℕ → Except ℕ ℕ := fun _ => .error 7

/-- An attempt oracle failing twice, then succeeding. -/
def orcLateW : ℕ → Except ℕ ℕ := fun i => if i < 2 then .error 7 else .ok 42

/-! Helper lemmas: decimal digit strings. -/

lemma digitCharN_facts {m : ℕ} (h : m < 10) :
    isDigitC (digitCharN m) = true ∧ lowerC (digitCharN m) = digitCharN m ∧
    isSpc (digitCharN m) = false ∧ charVal (digitCharN m) = m := by
  interval_cases m <;> exact ⟨by decide, by decide, by decide, by decide⟩

lemma natToStrAux_mem {fuel n : ℕ} (hfn : n < fuel) :
    ∀ c ∈ natToStrAux fuel n, ∃ m, m < 10 ∧ c = digitCharN m := by
  induction fuel generalizing n with
  | zero => omega
  | succ k ih =>
    intro c hc
    rw [natToStrAux] at hc
    by_cases h0 : n = 0
    · simp [h0] at hc
    · rw [if_neg h0] at hc
      rcases List.mem_cons.mp hc with h | h
      · exact ⟨n % 10, Nat.mod_lt _ (by norm_num), h⟩
      · exact ih (by omega) c h

lemma natToStrAux_valLE {fuel n : ℕ} (hfn : n < fuel) :
    valLE (natToStrAux fuel n) = n := by
  induction fuel generalizing n with
  | zero => omega
  | succ k ih =>
    rw [natToStrAux]
    by_cases h0 : n = 0
    · simp [h0, valLE]
    · rw [if_neg h0, valLE, ih (by omega)]
      have := (digitCharN_facts (Nat.mod_lt n (show 0 < 10 by norm_num))).2.2.2
      omega

lemma natToStrAux_ne_nil {fuel n : ℕ} (hfn : n < fuel) (h0 : n ≠ 0) :
    natToStrAux fuel n ≠ [] := by
  cases fuel with
  | zero => omega
  | succ k => rw [natToStrAux, if_neg h0]; exact List.cons_ne_nil _ _

lemma natToStr_ne_nil (n : ℕ) : natToStr n ≠ [] := by
  rw [natToStr]
  by_cases h0 : n = 0
  · simp [h0]
  · rw [if_neg h0]
    simpa using natToStrAux_ne_nil (Nat.lt_succ_self n) h0

lemma natToStr_mem {n : ℕ} : ∀ c ∈ natToStr n, ∃ m, m < 10 ∧ c = digitCharN m := by
  intro c hc
  rw [natToStr] at hc
  by_cases h0 : n = 0
  · rw [if_pos h0] at hc
    simp at hc
    exact ⟨0, by norm_num, by rw [hc]; rfl⟩
  · rw [if_neg h0, List.mem_reverse] at hc
    exact natToStrAux_mem (Nat.lt_succ_self n) c hc

lemma natToStr_isDigit {n : ℕ} {c : Char} (hc : c ∈ natToStr n) : isDigitC c = true := by
  obtain ⟨m, hm, rfl⟩ := natToStr_mem c hc
  exact (digitCharN_facts hm).1

lemma natToStr_lowerC {n : ℕ} {c : Char} (hc : c ∈ natToStr n) : lowerC c = c := by
  obtain ⟨m, hm, rfl⟩ := natToStr_mem c hc
  exact (digitCharN_facts hm).2.1

lemma natToStr_notSpc {n : ℕ} {c : Char} (hc : c ∈ natToStr n) : isSpc c = false := by
  obtain ⟨m, hm, rfl⟩ := natToStr_mem c hc
  exact (digitCharN_facts hm).2.2.1

lemma foldl_reverse_valLE (l : Str) :
    ∀ a : ℕ, List.foldl (fun a c => a * 10 + charVal c) a l.reverse = a * 10 ^ l.length + valLE l := by
  induction l with
  | nil => intro a; simp [valLE]
  | cons c t ih =>
    intro a
    rw [List.reverse_cons, List.foldl_append, ih]
    simp only [List.foldl_cons, List.foldl_nil, valLE, List.length_cons]
    ring

lemma parseNat_natToStr (n : ℕ) : parseNat (natToStr n) = n := by
  rw [natToStr]
  by_cases h0 : n = 0
  · rw [if_pos h0, h0]; decide
  · rw [if_neg h0, parseNat, foldl_reverse_valLE, natToStrAux_valLE (Nat.lt_succ_self n)]
    ring

lemma toLowerL_natToStr (n : ℕ) : toLowerL (natToStr n) = natToStr n := by
  rw [toLowerL]
  exact List.map_congr_left (fun c hc => natToStr_lowerC hc) |>.trans (List.map_id _)

/-! Helper lemmas: `takeWhile`/`dropWhile`/`stripL`. -/

lemma takeWhile_append_eq {p : Char → Bool} {ds rest : Str}
    (h1 : ∀ c ∈ ds, p c = true) (h2 : ∀ r rs, rest = r :: rs → p r = false) :
    (ds ++ rest).takeWhile p = ds ∧ (ds ++ rest).dropWhile p = rest := by
  induction ds with
  | nil =>
    simp only [List.nil_append]
    cases rest with
    | nil => simp
    | cons r rs =>
      rw [List.takeWhile_cons, List.dropWhile_cons, h2 r rs rfl]
      simp
  | cons d ds ih =>
    have hd : p d = true := h1 d (List.mem_cons_self d ds)
    have ⟨iht, ihd⟩ := ih (fun c hc => h1 c (List.mem_cons_of_mem d hc))
    rw [List.cons_append, List.takeWhile_cons, List.dropWhile_cons, hd]
    simp [iht, ihd]

lemma dropWhile_cons_false {p : Char → Bool} {c : Char} {l : Str} (h : p c = false) :
    (c :: l).dropWhile p = c :: l := by
  rw [List.dropWhile_cons, h]; simp

lemma stripL_eq_self {s : Str}
    (h1 : ∀ c t, s = c :: t → isSpc c = false)
    (h2 : ∀ c t, s.reverse = c :: t → isSpc c = false) : stripL s = s := by
  have hdrop : s.dropWhile isSpc = s := by
    cases hs : s with
    | nil => rfl
    | cons c t => exact dropWhile_cons_false (h1 c t hs)
  have hdrop2 : s.reverse.dropWhile isSpc = s.reverse := by
    cases hr : s.reverse with
    | nil => rfl
    | cons c2 t2 => exact dropWhile_cons_false (h2 c2 t2 hr)
  rw [stripL, hdrop, hdrop2, List.reverse_reverse]

/-! Helper lemmas: the leftmost-match scan of `parse_time_ago`. -/

lemma matchNum_canonical {n : ℕ} {rest : Str}
    (hr : ∀ r rs, rest = r :: rs → isDigitC r = false)
    {u : Str} (hfind : unitWords.find? (fun w => isPre w (rest.dropWhile isSpc)) = some u) :
    matchNum (natToStr n ++ rest) = some (n, u) := by
  have hdig : ∀ c ∈ natToStr n, isDigitC c = true := fun c hc => natToStr_isDigit hc
  have hpair := takeWhile_append_eq hdig hr
  have hne : (natToStr n).isEmpty = false := by
    cases hds : natToStr n with
    | nil => exact absurd hds (natToStr_ne_nil n)
    | cons d ds => rfl
  rw [matchNum, hpair.1, hpair.2, hfind, hne]
  simp [parseNat_natToStr]

lemma findTimeMatch_canonical {n : ℕ} {rest : Str}
    (hr : ∀ r rs, rest = r :: rs → isDigitC r = false)
    {u : Str} (hfind : unitWords.find? (fun w => isPre w (rest.dropWhile isSpc)) = some u) :
    findTimeMatch (natToStr n ++ rest) = some (n, u) := by
  obtain ⟨d, ds, hds⟩ := List.exists_cons_of_ne_nil (natToStr_ne_nil n)
  have hm := matchNum_canonical (n := n) hr hfind
  rw [hds, List.cons_append] at hm ⊢
  rw [findTimeMatch, hm]

/-- Behaviour of the normalizer on the canonical phrase
`"<digits> <unit> ago"`: the unit may be written in any case (`hlu`),
the matched alternative is `u0` (`hfind`) and its mapping entry is `q`
(`hlook`). -/
lemma parse_time_ago_canonical {n : ℕ} {now : ℚ} {u w u0 : Str} {q : ℚ}
    (hlu : toLowerL u = w)
    (hrev : ∃ k, (' ' :: (w ++ (" ago").toList)).reverse = 'o' :: k)
    (hfind : unitWords.find? (fun z => isPre z ((' ' :: (w ++ (" ago").toList)).dropWhile isSpc)) = some u0)
    (hlook : lookupQ timeMapping u0 = some q) :
    parse_time_ago now (natToStr n ++ ' ' :: (u ++ (" ago").toList))
      = formatDMY (now - (n : ℚ) * q) := by
  obtain ⟨k, hk⟩ := hrev
  have hne : natToStr n ++ ' ' :: (u ++ (" ago").toList) ≠ [] := by
    intro h
    exact natToStr_ne_nil n (List.append_eq_nil.mp h).1
  have h1 : List.map lowerC (natToStr n) = natToStr n := toLowerL_natToStr n
  have h2 : List.map lowerC u = w := hlu
  have h3 : List.map lowerC ((" ago").toList) = (" ago").toList := by decide
  have h4 : lowerC ' ' = ' ' := by decide
  have hlow : toLowerL (natToStr n ++ ' ' :: (u ++ (" ago").toList))
      = natToStr n ++ ' ' :: (w ++ (" ago").toList) := by
    simp only [toLowerL, List.map_append, List.map_cons, h1, h2, h3, h4]
  have hstrip : stripL (natToStr n ++ ' ' :: (w ++ (" ago").toList))
      = natToStr n ++ ' ' :: (w ++ (" ago").toList) := by
    apply stripL_eq_self
    · intro c t hct
      obtain ⟨d, ds, hds⟩ := List.exists_cons_of_ne_nil (natToStr_ne_nil n)
      rw [hds, List.cons_append] at hct
      injection hct with hc _
      subst hc
      exact natToStr_notSpc (show d ∈ natToStr n by rw [hds]; exact List.mem_cons_self _ _)
    · intro c t hct
      rw [List.reverse_append, hk, List.cons_append] at hct
      injection hct with hc _
      subst hc
      decide
  have hfm : findTimeMatch (natToStr n ++ ' ' :: (w ++ (" ago").toList)) = some (n, u0) := by
    apply findTimeMatch_canonical
    · intro r rs h
      injection h with hr _
      subst hr
      decide
    · exact hfind
  simp only [parse_time_ago]
  rw [if_neg hne, hlow, hstrip, hfm]
  simp only [hlook]

/-! Helper lemmas: `extract_rfq_data` decomposes into the per-field
extractors — every assignment block is a record update whose new value
depends only on the node. -/

lemma stepLink_eq (uj : Str → Str → Str) (b : Str) (e : Html) (d : RFQRecord) :
    stepLink uj b e d =
      { d with
        inquiryUrl :=
          match anchorF e with
          | some l => uj b ((attr? l (("href").toList)).getD [])
          | none => d.inquiryUrl,
        rfqId :=
          match anchorF e with
          | some l => (idCapture ((attr? l (("href").toList)).getD [])).getD d.rfqId
          | none => d.rfqId } := by
  cases ha : anchorF e with
  | none => simp only [stepLink, ha]
  | some l =>
    simp only [stepLink, ha]
    cases hic : idCapture ((attr? l (("href").toList)).getD []) with
    | none => rfl
    | some idv => rfl

lemma stepTitle_eq (e : Html) (d : RFQRecord) :
    stepTitle e d =
      { d with title := match titleElemF e with | some t => getTextStrip t | none => d.title } := by
  cases ht : titleElemF e <;> simp only [stepTitle, ht]

lemma stepBuyer_eq (e : Html) (d : RFQRecord) :
    stepBuyer e d =
      { d with buyerName := match buyerElemF e with | some b => getTextStrip b | none => d.buyerName } := by
  cases hb : buyerElemF e <;> simp only [stepBuyer, hb]

lemma stepImg_eq (e : Html) (d : RFQRecord) :
    stepImg e d =
      { d with buyerImage :=
          match imgElemF e with
          | some img =>
            match attr? img (("src").toList) with
            | some s => if s = [] then d.buyerImage else s
            | none => d.buyerImage
          | none => d.buyerImage } := by
  cases hi : imgElemF e with
  | none => simp only [stepImg, hi]
  | some img =>
    simp only [stepImg, hi]
    cases hs : attr? img (("src").toList) with
    | none => rfl
    | some s => by_cases hemp : s = [] <;> simp [hemp]

lemma stepTime_eq (now : ℚ) (e : Html) (d : RFQRecord) :
    stepTime now e d =
      { d with
        inquiryTime := match timeElemF e with | some t => getTextStrip t | none => d.inquiryTime,
        inquiryDate :=
          match timeElemF e with
          | some t => parse_time_ago now (getTextStrip t)
          | none => d.inquiryDate } := by
  cases ht : timeElemF e <;> simp only [stepTime, ht]

lemma stepQuotes_eq (e : Html) (d : RFQRecord) :
    stepQuotes e d =
      { d with quotesLeft :=
          match quotesElemF e with
          | some q2 => (firstDigitRun (getTextStrip q2)).getD d.quotesLeft
          | none => d.quotesLeft } := by
  cases hq : quotesElemF e with
  | none => simp only [stepQuotes, hq]
  | some q2 =>
    simp only [stepQuotes, hq]
    cases hf : firstDigitRun (getTextStrip q2) <;> rfl

lemma stepCountry_eq (e : Html) (d : RFQRecord) :
    stepCountry e d =
      { d with country := match countryElemF e with | some c => getTextStrip c | none => d.country } := by
  cases hc : countryElemF e <;> simp only [stepCountry, hc]

lemma stepQuantity_eq (e : Html) (d : RFQRecord) :
    stepQuantity e d =
      { d with quantityRequired :=
          match quantityElemF e with | some q2 => getTextStrip q2 | none => d.quantityRequired } := by
  cases hq : quantityElemF e <;> simp only [stepQuantity, hq]

lemma stepEmail_eq (e : Html) (d : RFQRecord) :
    stepEmail e d =
      { d with emailConfirmed :=
          match flagElemF emailWords e with
          | some _ => ("Yes").toList
          | none => d.emailConfirmed } := by
  cases hf : flagElemF emailWords e <;> simp only [stepEmail, hf]

lemma stepExperienced_eq (e : Html) (d : RFQRecord) :
    stepExperienced e d =
      { d with experiencedBuyer :=
          match flagElemF experiencedWords e with
          | some _ => ("Yes").toList
          | none => d.experiencedBuyer } := by
  cases hf : flagElemF experiencedWords e <;> simp only [stepExperienced, hf]

lemma stepComplete_eq (e : Html) (d : RFQRecord) :
    stepComplete e d =
      { d with completeOrderViaRfq :=
          match flagElemF completeWords e with
          | some _ => ("Yes").toList
          | none => d.completeOrderViaRfq } := by
  cases hf : flagElemF completeWords e <;> simp only [stepComplete, hf]

lemma stepTypical_eq (e : Html) (d : RFQRecord) :
    stepTypical e d =
      { d with typicalReplies :=
          match flagElemF typicalWords e with
          | some _ => ("Yes").toList
          | none => d.typicalReplies } := by
  cases hf : flagElemF typicalWords e <;> simp only [stepTypical, hf]

lemma stepInteractive_eq (e : Html) (d : RFQRecord) :
    stepInteractive e d =
      { d with interactiveUser :=
          match flagElemF interactiveWords e with
          | some _ => ("Yes").toList
          | none => d.interactiveUser } := by
  cases hf : flagElemF interactiveWords e <;> simp only [stepInteractive, hf]

/-- The extraction pipeline computes exactly the per-field extractors:
no assignment block reads another block's output, so a miss in one block
cannot disturb any other field. -/
lemma extract_fields (uj : Str → Str → Str) (b : Str) (now : ℚ) (e : Html) :
    extract_rfq_data uj b now e =
      ⟨rfqIdF e, titleF e, buyerNameF e, buyerImageF e, inquiryTimeF e, quotesLeftF e,
       countryF e, quantityRequiredF e, flagF emailWords e, flagF experiencedWords e,
       flagF completeWords e, flagF typicalWords e, flagF interactiveWords e,
       inquiryUrlF uj b e, inquiryDateF now e, formatDMY now⟩ := by
  rw [extract_rfq_data, stepLink_eq, stepTitle_eq, stepBuyer_eq, stepImg_eq, stepTime_eq,
      stepQuotes_eq, stepCountry_eq, stepQuantity_eq, stepEmail_eq, stepExperienced_eq,
      stepComplete_eq, stepTypical_eq, stepInteractive_eq]
  rfl

/-! Helper lemmas: scanner membership. -/

lemma scanContent_mem {uj : Str → Str → Str} {b : Str} {now : ℚ} {soup : Html} {r : RFQRecord}
    (h : r ∈ scanContent uj b now soup) :
    ¬(r.title = []) ∧
    ∃ c, c ∈ rfqContainers soup ∧ (anchorF c).isSome = true ∧ r = extract_rfq_data uj b now c := by
  rw [scanContent] at h
  obtain ⟨hmap, hpred⟩ := List.mem_filter.mp h
  obtain ⟨c, hc, hrc⟩ := List.mem_map.mp hmap
  obtain ⟨hcc, hca⟩ := List.mem_filter.mp hc
  refine ⟨?_, c, hcc, hca, hrc.symm⟩
  intro ht
  simp [ht] at hpred

/-! Helper lemmas: the crawl loop. -/

lemma crawlVisit_early_stop (scrape : Str → List RFQRecord) :
    ∀ (pre : List Str) (p : Str) (post : List Str),
      (∀ q ∈ pre, scrape q ≠ []) → scrape p = [] →
      crawlVisit scrape (pre ++ p :: post) = (pre ++ [p], (pre.map scrape).flatten) := by
  intro pre
  induction pre with
  | nil =>
    intro p post _ hp
    simp [crawlVisit, hp]
  | cons q pre ih =>
    intro p post hpre hp
    have hq : scrape q ≠ [] := hpre q (List.mem_cons_self q pre)
    have hqe : (scrape q).isEmpty = false := by
      cases hcase : scrape q with
      | nil => exact absurd hcase hq
      | cons a l => rfl
    rw [List.cons_append, crawlVisit]
    simp only [hqe, Bool.false_eq_true, if_false]
    rw [ih p post (fun x hx => hpre x (List.mem_cons_of_mem q hx)) hp]
    simp

/-! Helper lemmas: pagination discovery preserves the seed and never
introduces duplicates. -/

lemma appendIfNew_shape (c : Str) (t : List Str) (u : Str) :
    ∃ t2, appendIfNew (c :: t) u = c :: t2 := by
  rw [appendIfNew]
  by_cases h : u ∈ c :: t
  · exact ⟨t, by rw [if_pos h]⟩
  · exact ⟨t ++ [u], by rw [if_neg h]; rfl⟩

lemma appendIfNew_nodup {l : List Str} (h : l.Nodup) (u : Str) : (appendIfNew l u).Nodup := by
  rw [appendIfNew]
  by_cases hm : u ∈ l
  · rw [if_pos hm]; exact h
  · rw [if_neg hm]
    refine List.nodup_append.mpr ⟨h, List.nodup_singleton u, ?_⟩
    intro a ha hau
    rw [List.mem_singleton] at hau
    subst hau
    exact hm ha

lemma foldl_appendIfNew {f : List Str → Html → List Str}
    (hf : ∀ acc x, f acc x = acc ∨ ∃ u, f acc x = appendIfNew acc u) :
    ∀ (links : List Html) (acc : List Str),
      (acc.Nodup → (links.foldl f acc).Nodup) ∧
      ∀ c t, acc = c :: t → ∃ t2, links.foldl f acc = c :: t2 := by
  intro links
  induction links with
  | nil =>
    intro acc
    exact ⟨fun h => h, fun c t h => ⟨t, by rw [List.foldl_nil, h]⟩⟩
  | cons x xs ih =>
    intro acc
    constructor
    · intro hnd
      rw [List.foldl_cons]
      rcases hf acc x with h | ⟨u, h⟩
      · rw [h]; exact (ih acc).1 hnd
      · rw [h]; exact (ih _).1 (appendIfNew_nodup hnd u)
    · intro c t hct
      rw [List.foldl_cons]
      rcases hf acc x with h | ⟨u, h⟩
      · rw [h]; exact (ih acc).2 c t hct
      · rw [h]
        subst hct
        obtain ⟨t2, h2⟩ := appendIfNew_shape c t u
        exact (ih _).2 c t2 h2

lemma paginationUrls_preserve (uj : Str → Str → Str) (sb : Str) (soup : Html) (urls : List Str) :
    (urls.Nodup → (paginationUrls uj sb soup urls).Nodup) ∧
    ∀ c t, urls = c :: t → ∃ t2, paginationUrls uj sb soup urls = c :: t2 := by
  rw [paginationUrls]
  cases hF : findFirst soup (fun h =>
      tagIn h [("div").toList, ("ul").toList] &&
      classMatches [("pag").toList, ("page").toList] h) with
  | none => exact ⟨fun h => h, fun c t h => ⟨t, h⟩⟩
  | some pagination =>
    refine foldl_appendIfNew (fun acc x => ?_) _ urls
    dsimp only
    by_cases hcond : (containsSub (("page").toList)
        (toLowerL ((attr? x (("href").toList)).getD [])) ||
        hasPDigits ((attr? x (("href").toList)).getD [])) = true
    · right; exact ⟨_, by rw [if_pos hcond]⟩
    · left; rw [if_neg hcond]

lemma nextUrlStep_preserve (uj : Str → Str → Str) (sb : Str) (soup : Html) (urls : List Str) :
    (urls.Nodup → (nextUrlStep uj sb soup urls).Nodup) ∧
    ∀ c t, urls = c :: t → ∃ t2, nextUrlStep uj sb soup urls = c :: t2 := by
  rw [nextUrlStep]
  cases hn : findFirst soup (fun h => tagIs h (("a").toList) && stringMatchesCI nextWords h) with
  | none => exact ⟨fun h => h, fun c t h => ⟨t, h⟩⟩
  | some nl =>
    dsimp only
    cases ha : attr? nl (("href").toList) with
    | none => exact ⟨fun h => h, fun c t h => ⟨t, h⟩⟩
    | some hv =>
      dsimp only
      by_cases hemp : hv = []
      · simp only [if_pos hemp]
        exact ⟨fun h => h, fun c t h => ⟨t, h⟩⟩
      · simp only [if_neg hemp]
        exact ⟨fun h => appendIfNew_nodup h _,
               fun c t h => by subst h; exact appendIfNew_shape c t _⟩

/-! Helper lemmas: the retry loop of `get_page`. -/

lemma get_page_go_fail {E R : Type} (oracle : ℕ → Except E R) (err : ℕ → E) :
    ∀ (d attempt : ℕ), 0 < d →
      (∀ i, attempt ≤ i → i < attempt + d → oracle i = .error (err i)) →
      get_page_go oracle d attempt =
        ⟨.error (err (attempt + d - 1)), d, (List.range' attempt (d - 1)).map (fun a => 2 ^ a)⟩ := by
  intro d
  induction d with
  | zero => omega
  | succ k ih =>
    intro attempt hd h
    rw [get_page_go, h attempt (le_refl _) (by omega)]
    dsimp only
    cases k with
    | zero => simp
    | succ m =>
      rw [if_pos (Nat.succ_pos m)]
      rw [ih (attempt + 1) (Nat.succ_pos m) (fun i h1 h2 => h i (by omega) (by omega))]
      have hidx : attempt + 1 + (m + 1) - 1 = attempt + (m + 1 + 1) - 1 := by omega
      simp [hidx, List.range'_succ]

lemma get_page_go_succ {E R : Type} (oracle : ℕ → Except E R) (r : R) :
    ∀ (d attempt : ℕ), 0 < d →
      (∀ i, attempt ≤ i → i < attempt + d - 1 → ∃ er, oracle i = .error er) →
      oracle (attempt + d - 1) = .ok r →
      (get_page_go oracle d attempt).result = .ok (some r) ∧
      (get_page_go oracle d attempt).attempts = d := by
  intro d
  induction d with
  | zero => omega
  | succ k ih =>
    intro attempt hd hfail hok
    cases k with
    | zero =>
      rw [show attempt + 1 - 1 = attempt from rfl] at hok
      rw [get_page_go, hok]
      exact ⟨rfl, rfl⟩
    | succ m =>
      obtain ⟨er, her⟩ := hfail attempt (le_refl _) (by omega)
      rw [get_page_go, her]
      dsimp only
      rw [if_pos (Nat.succ_pos m)]
      have hrec := ih (attempt + 1) (Nat.succ_pos m)
        (fun i h1 h2 => hfail i (by omega) (by omega))
        (by rw [show attempt + 1 + (m + 1) - 1 = attempt + (m + 2) - 1 from by omega]; exact hok)
      exact ⟨hrec.1, by rw [show (get_page_go oracle (m + 1) (attempt + 1)).attempts + 1
        = m + 2 from by rw [hrec.2]]⟩

/-! The claims. -/

/-- C1: for every natural number and every unit of the supported
vocabulary (case-insensitively), normalizing the phrase
`"<number> <unit> ago"` against the reference instant `now` returns the
date `now - number * days_per_unit` formatted `DD-MM-YYYY`, where
`days_per_unit` is the `timeMapping` table: hour(s) = 1/24, day(s) = 1,
week(s) = 7, month(s) = 30. -/
theorem parse_time_ago_relative_phrase (n : ℕ) (u : Str) (now : ℚ)
    (hu : toLowerL u ∈ unitWords) :
    parse_time_ago now (natToStr n ++ ' ' :: (u ++ (" ago").toList))
      = formatDMY (now - (n : ℚ) * (lookupQ timeMapping (toLowerL u)).getD 0) := by
  simp only [unitWords, List.mem_cons, List.not_mem_nil, or_false] at hu
  rcases hu with h | h | h | h | h | h | h | h <;> rw [h] <;>
    exact parse_time_ago_canonical h ⟨_, rfl⟩ rfl rfl

/-- Witness for C1 at the spec's example: normalizing "12 days ago" when
now is 2024-01-20 (day 19742 of the epoch) gives "08-01-2024". -/
theorem parse_time_ago_relative_phrase_witness :
    toLowerL (("days").toList) ∈ unitWords ∧
    parse_time_ago 19742 (("12 days ago").toList) = ("08-01-2024").toList := by
  refine ⟨by decide, ?_⟩
  have h := parse_time_ago_relative_phrase 12 (("days").toList) 19742 (by decide)
  have e1 : natToStr 12 ++ ' ' :: ((("days").toList) ++ (" ago").toList)
      = ("12 days ago").toList := by decide
  have e2 : (lookupQ timeMapping (toLowerL (("days").toList))).getD 0 = 1 := rfl
  have e3 : (19742 : ℚ) - ((12 : ℕ) : ℚ) * (lookupQ timeMapping (toLowerL (("days").toList))).getD 0
      = 19730 := by rw [e2]; norm_num
  rw [e1, e3] at h
  rw [h]
  decide

/-- C2: with at least one attempt configured, (a) when every attempt
fails, `get_page` performs exactly `retries` attempts, sleeping
`2 ^ attempt` after each failed attempt except the final one, and then
propagates the final error; (b) when the first `retries - 1` attempts
fail and the last one succeeds, it returns the response without
propagating any error, still having performed `retries` attempts. -/
theorem get_page_retry_contract (E R : Type) (retries : ℕ) (hr : 0 < retries) :
    (∀ (oracle : ℕ → Except E R) (err : ℕ → E),
       (∀ i, i < retries → oracle i = .error (err i)) →
       get_page oracle retries =
         ⟨.error (err (retries - 1)), retries,
          (List.range (retries - 1)).map (fun a => 2 ^ a)⟩) ∧
    (∀ (oracle : ℕ → Except E R) (r : R),
       (∀ i, i < retries - 1 → ∃ er, oracle i = .error er) →
       oracle (retries - 1) = .ok r →
       (get_page oracle retries).result = .ok (some r) ∧
       (get_page oracle retries).attempts = retries) := by
  constructor
  · intro oracle err h
    rw [get_page, get_page_go_fail oracle err retries 0 hr (fun i h1 h2 => h i (by omega)),
        List.range_eq_range']
    simp
  · intro oracle r hfail hok
    exact get_page_go_succ oracle r retries 0 hr (fun i h1 h2 => hfail i (by omega))
      (by rw [show 0 + retries - 1 = retries - 1 from by omega]; exact hok)

/-- Witness for C2 at the default `retries = 3`: an always-failing
oracle gives 3 attempts, sleeps `[1, 2]` and the propagated error; an
oracle succeeding on the third attempt gives a returned response. -/
theorem get_page_retry_contract_witness :
    get_page orcFailW 3 = ⟨.error 7, 3, [1, 2]⟩ ∧
    (get_page orcLateW 3).result = .ok (some 42) ∧
    (get_page orcLateW 3).attempts = 3 := by
  have h := get_page_retry_contract ℕ ℕ 3 (by decide)
  have h2 := h.2 orcLateW 42 (fun i hi => ⟨7, by simp [orcLateW, hi]⟩) rfl
  refine ⟨?_, h2.1, h2.2⟩
  rw [h.1 orcFailW (fun _ => 7) (fun i hi => rfl)]
  rfl

/-- C3: once the discovered page list (truncated to `max_pages`) reaches
a page yielding zero records, the crawl visits that page and stops —
later pages are never visited — and the final result is exactly the
concatenation, in visit order, of the records of the earlier pages. -/
theorem crawl_early_stop (uj : Str → Str → Str) (sb : Str) (now : ℚ)
    (fetch : Str → Except Unit Html) (start : Str) (maxp : ℕ)
    (pre : List Str) (p : Str) (post : List Str)
    (hsplit : (get_all_page_urls uj sb fetch start).take maxp = pre ++ p :: post)
    (hpre : ∀ q ∈ pre, scrape_rfq_page uj sb now fetch q ≠ [])
    (hp : scrape_rfq_page uj sb now fetch p = []) :
    pagesVisited uj sb now fetch start maxp = pre ++ [p] ∧
    scrape_all_pages uj sb now fetch start maxp
      = (pre.map (scrape_rfq_page uj sb now fetch)).flatten := by
  have h := crawlVisit_early_stop (scrape_rfq_page uj sb now fetch) pre p post hpre hp
  constructor
  · rw [pagesVisited, hsplit, h]
  · rw [scrape_all_pages, hsplit, h]

/-- Witness for C3: discovery finds `[S, B/page2, B/page3]`; `S` yields
one record and `B/page2` yields none, so only `[S, B/page2]` are visited
and the result is the records of `S`. -/
theorem crawl_early_stop_witness :
    pagesVisited ujW baseW 19742 fetchW startW 10 = [startW] ++ [page2W] ∧
    scrape_all_pages ujW baseW 19742 fetchW startW 10
      = ([startW].map (scrape_rfq_page ujW baseW 19742 fetchW)).flatten := by
  exact crawl_early_stop ujW baseW 19742 fetchW startW 10 [startW] page2W
    [("B/page3").toList] (by decide) (by decide) (by decide)

/-- C4: every record the scanner emits has a non-empty title, its output
row carries all 16 fields, and each flag field is the literal
"Yes" or "No". -/
theorem scan_records_wellformed (uj : Str → Str → Str) (b : Str) (now : ℚ) (soup : Html) :
    ∀ r ∈ scanContent uj b now soup,
      ¬(r.title = []) ∧ (toRow r).length = 16 ∧
      (r.emailConfirmed = ("Yes").toList ∨ r.emailConfirmed = ("No").toList) ∧
      (r.experiencedBuyer = ("Yes").toList ∨ r.experiencedBuyer = ("No").toList) ∧
      (r.completeOrderViaRfq = ("Yes").toList ∨ r.completeOrderViaRfq = ("No").toList) ∧
      (r.typicalReplies = ("Yes").toList ∨ r.typicalReplies = ("No").toList) ∧
      (r.interactiveUser = ("Yes").toList ∨ r.interactiveUser = ("No").toList) := by
  intro r hr
  obtain ⟨ht, c, hc, hca, hrc⟩ := scanContent_mem hr
  subst hrc
  refine ⟨ht, rfl, ?_, ?_, ?_, ?_, ?_⟩
  · rw [extract_fields]; dsimp only; cases hf : flagElemF emailWords c <;> simp [flagF, hf]
  · rw [extract_fields]; dsimp only; cases hf : flagElemF experiencedWords c <;> simp [flagF, hf]
  · rw [extract_fields]; dsimp only; cases hf : flagElemF completeWords c <;> simp [flagF, hf]
  · rw [extract_fields]; dsimp only; cases hf : flagElemF typicalWords c <;> simp [flagF, hf]
  · rw [extract_fields]; dsimp only; cases hf : flagElemF interactiveWords c <;> simp [flagF, hf]

/-- Witness for C4: the record scanned from `pageBoth`. -/
theorem scan_records_wellformed_witness :
    extract_rfq_data ujW baseW 19742 nodeA ∈ scanContent ujW baseW 19742 pageBoth ∧
    ¬((extract_rfq_data ujW baseW 19742 nodeA).title = []) ∧
    (toRow (extract_rfq_data ujW baseW 19742 nodeA)).length = 16 := by
  have hm : extract_rfq_data ujW baseW 19742 nodeA ∈ scanContent ujW baseW 19742 pageBoth := by
    decide
  have h := scan_records_wellformed ujW baseW 19742 pageBoth _ hm
  exact ⟨hm, h.1, h.2.1⟩

/-- C5: extraction is total in the embedding and field-local: the
extracted record is exactly the tuple of the sixteen per-field
extractors, each a function of the node alone, and whenever one field's
lookup fails only that field keeps its documented default. -/
theorem extract_field_local (uj : Str → Str → Str) (b : Str) (now : ℚ) (e : Html) :
    extract_rfq_data uj b now e =
      ⟨rfqIdF e, titleF e, buyerNameF e, buyerImageF e, inquiryTimeF e, quotesLeftF e,
       countryF e, quantityRequiredF e, flagF emailWords e, flagF experiencedWords e,
       flagF completeWords e, flagF typicalWords e, flagF interactiveWords e,
       inquiryUrlF uj b e, inquiryDateF now e, formatDMY now⟩ ∧
    (anchorF e = none → inquiryUrlF uj b e = [] ∧ rfqIdF e = []) ∧
    (titleElemF e = none → titleF e = []) ∧
    (buyerElemF e = none → buyerNameF e = []) ∧
    (imgElemF e = none → buyerImageF e = []) ∧
    (timeElemF e = none → inquiryTimeF e = [] ∧ inquiryDateF now e = []) ∧
    (quotesElemF e = none → quotesLeftF e = []) ∧
    (countryElemF e = none → countryF e = []) ∧
    (quantityElemF e = none → quantityRequiredF e = []) ∧
    (∀ ws, flagElemF ws e = none → flagF ws e = ("No").toList) := by
  refine ⟨extract_fields uj b now e, ?_, ?_, ?_, ?_, ?_, ?_, ?_, ?_, ?_⟩
  · intro h; constructor
    · simp [inquiryUrlF, h]
    · simp [rfqIdF, h]
  · intro h; simp [titleF, h]
  · intro h; simp [buyerNameF, h]
  · intro h; simp [buyerImageF, h]
  · intro h; constructor
    · simp [inquiryTimeF, h]
    · simp [inquiryDateF, h]
  · intro h; simp [quotesLeftF, h]
  · intro h; simp [countryF, h]
  · intro h; simp [quantityRequiredF, h]
  · intro ws h; simp [flagF, h]

/-- Witness for C5 on a node whose anchor lookup fails: the
decomposition holds and the URL and id fields keep their defaults. -/
theorem extract_field_local_witness :
    extract_rfq_data ujW baseW 19742 nodeNoAnchor =
      ⟨rfqIdF nodeNoAnchor, titleF nodeNoAnchor, buyerNameF nodeNoAnchor,
       buyerImageF nodeNoAnchor, inquiryTimeF nodeNoAnchor, quotesLeftF nodeNoAnchor,
       countryF nodeNoAnchor, quantityRequiredF nodeNoAnchor, flagF emailWords nodeNoAnchor,
       flagF experiencedWords nodeNoAnchor, flagF completeWords nodeNoAnchor,
       flagF typicalWords nodeNoAnchor, flagF interactiveWords nodeNoAnchor,
       inquiryUrlF ujW baseW nodeNoAnchor, inquiryDateF 19742 nodeNoAnchor,
       formatDMY 19742⟩ ∧
    inquiryUrlF ujW baseW nodeNoAnchor = [] ∧ rfqIdF nodeNoAnchor = [] := by
  have h := extract_field_local ujW baseW 19742 nodeNoAnchor
  exact ⟨h.1, h.2.1 rfl⟩

/-- C6: the discovered URL sequence always starts with the start URL and
contains no URL twice; any fetch failure during discovery yields exactly
the single-element sequence `[start]` and never a raised error. -/
theorem discovery_contract (uj : Str → Str → Str) (sb : Str)
    (fetch : Str → Except Unit Html) (start : Str) :
    (get_all_page_urls uj sb fetch start).head? = some start ∧
    (get_all_page_urls uj sb fetch start).Nodup ∧
    ∀ er, fetch start = .error er → get_all_page_urls uj sb fetch start = [start] := by
  cases hf : fetch start with
  | error er =>
    rw [get_all_page_urls, hf]
    exact ⟨rfl, List.nodup_singleton start, fun _ _ => rfl⟩
  | ok soup =>
    rw [get_all_page_urls, hf]
    dsimp only
    have hpag := paginationUrls_preserve uj sb soup [start]
    obtain ⟨t2, hshape⟩ := hpag.2 start [] rfl
    have hnodup := hpag.1 (List.nodup_singleton start)
    have hnext := nextUrlStep_preserve uj sb soup (paginationUrls uj sb soup [start])
    obtain ⟨t3, hshape3⟩ := hnext.2 start t2 hshape
    refine ⟨?_, hnext.1 hnodup, ?_⟩
    · rw [hshape3]; rfl
    · intro er her
      exact Except.noConfusion her

/-- Witness for C6: a failing fetcher collapses discovery to the seed,
and discovery over `pageMain` keeps the seed first with no duplicates. -/
theorem discovery_contract_witness :
    get_all_page_urls ujW baseW fetchFailW startW = [startW] ∧
    (get_all_page_urls ujW baseW fetchW startW).head? = some startW ∧
    (get_all_page_urls ujW baseW fetchW startW).Nodup := by
  have h1 := discovery_contract ujW baseW fetchFailW startW
  have h2 := discovery_contract ujW baseW fetchW startW
  exact ⟨h1.2.2 () rfl, h2.1, h2.2.1⟩

/-- C7 counterexample: "Yesterday" contains no supported number-unit
pattern, yet normalization does not return the raw text unchanged — it
returns the lower-cased trimmed text "yesterday", so a record's
inquiry_date can differ from its inquiry_time_text. -/
theorem parse_time_ago_raw_cex :
    findTimeMatch (stripL (toLowerL (("Yesterday").toList))) = none ∧
    parse_time_ago 0 (("Yesterday").toList) ≠ ("Yesterday").toList ∧
    parse_time_ago 0 (("Yesterday").toList) = ("yesterday").toList := by
  exact ⟨by decide, by decide, by decide⟩

/-- C7 (amended): when no supported number-unit pattern occurs,
normalization returns the trimmed lower-cased input unchanged (not an
error), so inquiry_date is the normalization of the inquiry_time text
(they agree whenever that text is already trimmed and lower-cased);
normalizing the empty string returns the empty string. -/
theorem parse_time_ago_passthrough (now : ℚ) :
    parse_time_ago now [] = [] ∧
    (∀ s : Str, findTimeMatch (stripL (toLowerL s)) = none →
       parse_time_ago now s = stripL (toLowerL s)) ∧
    ∀ (uj : Str → Str → Str) (b : Str) (e : Html),
      (extract_rfq_data uj b now e).inquiryDate
        = parse_time_ago now (extract_rfq_data uj b now e).inquiryTime := by
  refine ⟨rfl, ?_, ?_⟩
  · intro s hs
    cases s with
    | nil => rfl
    | cons c cs =>
      simp only [parse_time_ago]
      rw [if_neg (List.cons_ne_nil c cs), hs]
  · intro uj b e
    rw [extract_fields]
    dsimp only
    cases ht : timeElemF e <;> simp [inquiryDateF, inquiryTimeF, ht, parse_time_ago]

/-- Witness for C7 (amended), applied at the unparseable text
"Yesterday". -/
theorem parse_time_ago_passthrough_witness :
    parse_time_ago 0 [] = [] ∧
    parse_time_ago 0 (("Yesterday").toList) = stripL (toLowerL (("Yesterday").toList)) := by
  have h := parse_time_ago_passthrough 0
  exact ⟨h.1, h.2.1 (("Yesterday").toList) (by decide)⟩

/-- C8 counterexample: an anchor-free candidate node can still extract a
non-empty title ("Foo"), so its exclusion from the scan output is not
due to an empty title; the scanner's anchor filter is what removes it
(the node is a candidate container, yet the scan yields nothing). -/
theorem no_anchor_cex :
    (anchorF nodeNoAnchor).isSome = false ∧
    ¬((extract_rfq_data ujW baseW 19742 nodeNoAnchor).title = []) ∧
    ¬((rfqContainers pageOnlyNoAnchor).isEmpty = true) ∧
    scanContent ujW baseW 19742 pageOnlyNoAnchor = [] := by
  exact ⟨by decide, by decide, by decide, by decide⟩

/-- C8 (amended): a node with no href-bearing anchor extracts empty
inquiry_url and rfq_id, and no scan-output record ever originates from
such a node — the exclusion is the scanner's anchor filter (the
extracted title of an anchor-free node need not be empty). -/
theorem no_anchor_excluded (uj : Str → Str → Str) (b : Str) (now : ℚ) (nd : Html)
    (h : anchorF nd = none) :
    (extract_rfq_data uj b now nd).inquiryUrl = [] ∧
    (extract_rfq_data uj b now nd).rfqId = [] ∧
    ∀ (soup : Html) (r : RFQRecord), r ∈ scanContent uj b now soup →
      ∃ c, c ∈ rfqContainers soup ∧ (anchorF c).isSome = true ∧
        r = extract_rfq_data uj b now c := by
  refine ⟨?_, ?_, ?_⟩
  · rw [extract_fields]; dsimp only; simp [inquiryUrlF, h]
  · rw [extract_fields]; dsimp only; simp [rfqIdF, h]
  · intro soup r hr
    exact (scanContent_mem hr).2

/-- Witness for C8 (amended) at the concrete anchor-free node. -/
theorem no_anchor_excluded_witness :
    (extract_rfq_data ujW baseW 19742 nodeNoAnchor).inquiryUrl = [] ∧
    (extract_rfq_data ujW baseW 19742 nodeNoAnchor).rfqId = [] := by
  have h := no_anchor_excluded ujW baseW 19742 nodeNoAnchor rfl
  exact ⟨h.1, h.2.1⟩

/-- C9 counterexample: an empty CrawlResult produces no output table at
all — `save_to_csv` returns `None` at the `if not data` guard — rather
than a 16-column header-only table. -/
theorem save_to_csv_empty_cex : save_to_csv [] = none := rfl

/-- C9 (amended): for every non-empty CrawlResult the produced table is
exactly the fixed 16-column header followed by one 16-field row per
record in order, with empty fields written as empty strings; an empty
CrawlResult produces no table at all. -/
theorem save_to_csv_table (data : List RFQRecord) (h : data ≠ []) :
    save_to_csv data = some (headerRow :: data.map toRow) ∧
    headerRow.length = 16 ∧
    (∀ r : RFQRecord, (toRow r).length = 16) ∧
    (headerRow :: data.map toRow).length = data.length + 1 := by
  have hne : data.isEmpty = false := by
    cases hd : data with
    | nil => exact absurd hd h
    | cons a l => rfl
  refine ⟨?_, rfl, fun r => rfl, by simp⟩
  rw [save_to_csv, hne]
  rfl

/-- Witness for C9 (amended) on a one-record CrawlResult. -/
theorem save_to_csv_table_witness :
    save_to_csv [initRecord 0] = some (headerRow :: [toRow (initRecord 0)]) ∧
    headerRow.length = 16 := by
  have h := save_to_csv_table [initRecord 0] (List.cons_ne_nil _ _)
  exact ⟨h.1, h.2.1⟩

/-- C10: a retry count of zero performs no HTTP attempt and returns
Python's `None` without raising — neither a response nor a transport
error reaches the caller. -/
theorem get_page_zero_retries (E R : Type) (oracle : ℕ → Except E R) :
    get_page oracle 0 = ⟨.ok none, 0, []⟩ := rfl

end RFQ
